import Mathlib

/-!
Shallow embedding of the routing and lattice-window logic of the
conformal lattice planner.

The `router` namespace embeds `LoopRouter` from
`src/conformal_lattice_planner/loop_router.cpp`: the fixed cyclic road
sequence, `nextRoad` / `prevRoad` (wrap-around successor and predecessor
with an out-of-range error off route), `waypointOnRoute` (first
forward-reachable candidate whose road is on the route) and
`frontWaypoint` (same-road candidate first, else a candidate on the next
road, else absent).  The external CARLA map is modelled by a query
function `getNext : Waypoint → ℚ → List Waypoint` standing for
`waypoint->GetNext(distance)`; `double` distances are modelled by ℚ
(the only comparison performed on them, `distance <= 0.0`, is exact).

The `planner` namespace embeds the lattice window arithmetic:
`Lattice::shift` is translated verbatim from the header, while `extend`
and `shorten` (whose bodies are not part of the provided sources) are
modelled from the spec, as are the `leftFront` / `frontLeft` queries.
-/

namespace router

/-- Error kinds surfaced by the router: `notOnRoute` models the
`std::out_of_range` thrown by `nextRoad`/`prevRoad` when the road is not
in the sequence, `invalidArgument` models the `std::runtime_error`
thrown by `frontWaypoint` on a non-positive distance. -/
inductive RouterError where
  | notOnRoute
  | invalidArgument
  deriving DecidableEq, Repr

/-- A CARLA waypoint, reduced to the data the router inspects: an
identity and the id of the road it lies on (`GetRoadId`). -/
structure Waypoint where
  id : ℕ
  roadId : ℕ
  deriving DecidableEq, Repr

/-- The fixed cyclic road sequence `road_sequence_` initialized by
`LoopRouter::LoopRouter`. -/
def roadSequence : List ℕ :=
  [47, 558, 48, 887, 49, 717, 50, 42, 276, 43, 35, 636, 36,
   540, 37, 1021, 38, 678, 39, 728, 40, 841, 41, 6, 45, 103,
   46, 659]

/-- Core loop of `LoopRouter::nextRoad`: find the first occurrence of
`road`; if it is the last element return the front element `f`, else
return the following element; `none` when `road` is absent (the C++
throws there). -/
def nextAux (road f : ℕ) : List ℕ → Option ℕ
  | [] => none
  | x :: rest =>
    if x = road then
      match rest with
      | [] => some f
      | y :: _ => some y
    else nextAux road f rest

/-- Core loop of `LoopRouter::prevRoad`: find the first occurrence of
`road`; if it is the first element (`acc = none`) return the back
element `b`, else return the preceding element `acc`; `none` when
`road` is absent. -/
def prevAux (road b : ℕ) (acc : Option ℕ) : List ℕ → Option ℕ
  | [] => none
  | x :: rest =>
    if x = road then some (acc.getD b) else prevAux road b (some x) rest

/-- The successor search of `LoopRouter::nextRoad` on the configured
sequence: `some` of the (wrapping) successor, or `none` off route. -/
def nextSeg (road : ℕ) : Option ℕ :=
  nextAux road (roadSequence.headD 0) roadSequence

/-- The predecessor search of `LoopRouter::prevRoad` on the configured
sequence: `some` of the (wrapping) predecessor, or `none` off route. -/
def prevSeg (road : ℕ) : Option ℕ :=
  prevAux road (roadSequence.getLastD 0) none roadSequence

/-- `LoopRouter::nextRoad(road)`: successor of `road` on the cyclic
sequence, wrapping from the last element to the front; throws (modelled
as `Except.error`) `notOnRoute` when `road` is not on the sequence.
The value is wrapped in `Option` mirroring the `boost::optional<size_t>`
return type of the C++. -/
def nextRoad (road : ℕ) : Except RouterError (Option ℕ) :=
  match nextSeg road with
  | none => .error .notOnRoute
  | some v => .ok (some v)

/-- `LoopRouter::prevRoad(road)`: predecessor of `road` on the cyclic
sequence, wrapping from the first element to the back; errors with
`notOnRoute` when `road` is not on the sequence. -/
def prevRoad (road : ℕ) : Except RouterError (Option ℕ) :=
  match prevSeg road with
  | none => .error .notOnRoute
  | some v => .ok (some v)

/-- Candidate scan of `LoopRouter::waypointOnRoute`: return the first
candidate whose road id occurs in the road sequence (`std::find`
succeeds), else `none` (the C++ returns `nullptr`). -/
def onRouteLoop : List Waypoint → Option Waypoint
  | [] => none
  | c :: rest =>
    if roadSequence.contains c.roadId then some c else onRouteLoop rest

/-- `LoopRouter::waypointOnRoute(waypoint)`: scans
`waypoint->GetNext(0.01)` for the first candidate on the route; never
throws. -/
def waypointOnRoute (getNext : Waypoint → ℚ → List Waypoint)
    (wp : Waypoint) : Option Waypoint :=
  onRouteLoop (getNext wp (1 / 100))

/-- Candidate scan of `LoopRouter::frontWaypoint`: the first candidate
on road `thisR` is returned immediately; otherwise the scan remembers
the most recent candidate on road `nextR` (accumulator `acc`, initially
`none`). -/
def findFront (thisR nextR : ℕ) : List Waypoint → Option Waypoint → Option Waypoint
  | [], acc => acc
  | c :: rest, acc =>
    if c.roadId = thisR then some c
    else findFront thisR nextR rest (if c.roadId = nextR then some c else acc)

/-- `LoopRouter::frontWaypoint(waypoint, distance)`: errors with
`invalidArgument` on `distance <= 0.0`; then computes
`nextRoad(this_road)` (propagating its `notOnRoute` error) and scans
`waypoint->GetNext(distance)`; the disengaged-optional fallback `-1`
of the C++ (`is_next_road ? *is_next_road : -1`) is the size_t value
`2 ^ 64 - 1`. -/
def frontWaypoint (getNext : Waypoint → ℚ → List Waypoint)
    (wp : Waypoint) (distance : ℚ) : Except RouterError (Option Waypoint) :=
  if distance ≤ 0 then .error .invalidArgument
  else
    match nextRoad wp.roadId with
    | .error e => .error e
    | .ok isNext =>
      .ok (findFront wp.roadId (isNext.getD (2 ^ 64 - 1)) (getNext wp distance) none)

end router

namespace planner

/-- Longitudinal window of a lattice, abstracted to the data the range
arithmetic of `extend` / `shorten` / `shift` acts on: the entry node
distance, the number of resolution-spaced hops to the exit node, and
the fixed longitudinal resolution.  Node distances sit on the grid
`entry + k * res`, `0 ≤ k ≤ steps`. -/
structure LatticeState where
  entry : ℚ
  steps : ℕ
  res : ℚ
  deriving DecidableEq, Repr

/-- Distance of the lattice entry node (`lattice_entry_->distance()`). -/
def latticeEntry (s : LatticeState) : ℚ := s.entry

/-- Distance of the lattice exit node (`lattice_exit_->distance()`),
the farthest grid node. -/
def latticeExit (s : LatticeState) : ℚ := s.entry + s.steps * s.res

/-- The current range of the lattice, exit distance minus entry
distance. -/
def latticeRange (s : LatticeState) : ℚ := latticeExit s - latticeEntry s

/-- Modelled from the spec: the body of `Lattice::extend` is not among
the provided sources (the header only declares it).  Per the spec, it
is a no-op if the new range is at most the current range; otherwise it
forward-seeds nodes at `res` spacing from the current far end until the
accumulated distance reaches `newRange`, updating the exit to the new
farthest node (the first grid node at distance at least `newRange`). -/
def extend (newRange : ℚ) (s : LatticeState) : LatticeState :=
  if newRange ≤ latticeRange s then s
  else { s with steps := (⌈newRange / s.res⌉).toNat }

/-- Modelled from the spec: the body of `Lattice::shorten` is not among
the provided sources (the header only declares it).  Per the spec, it
is a no-op if the new range is at least the current range; otherwise it
removes every node whose lattice distance exceeds
`entry + newRange`, updating the exit to the farthest remaining grid
node. -/
def shorten (newRange : ℚ) (s : LatticeState) : LatticeState :=
  if latticeRange s ≤ newRange then s
  else { s with steps := (⌊newRange / s.res⌋).toNat }

/-- `Lattice::shift(movement)`, translated from the header: read the
current range as exit distance minus entry distance, `extend` to
`range + movement`, then `shorten` back to `range`. -/
def shift (movement : ℚ) (s : LatticeState) : LatticeState :=
  let range := latticeExit s - latticeEntry s
  shorten range (extend (range + movement) s)

/-- Modelled from the spec: the bodies of the relative-position queries
(`leftFront`, `frontLeft`, ...) are not among the provided sources.
The lattice node structure they traverse is modelled as a grid of
populated (lane, longitudinal index) coordinates; `front` links point
to the next index on the same lane, `left` links to the adjacent lane
at the same index, each present exactly when the target coordinate is
populated. -/
structure LatticeGrid where
  populated : ℤ × ℕ → Bool

/-- The `front` link of a node: the node one resolution hop ahead on
the same lane, or absent at the lattice boundary. -/
def frontNode (g : LatticeGrid) (c : ℤ × ℕ) : Option (ℤ × ℕ) :=
  if g.populated (c.1, c.2 + 1) then some (c.1, c.2 + 1) else none

/-- The `left` link of a node: the node on the adjacent lane at the
same longitudinal index, or absent if no such node exists. -/
def leftNode (g : LatticeGrid) (c : ℤ × ℕ) : Option (ℤ × ℕ) :=
  if g.populated (c.1 + 1, c.2) then some (c.1 + 1, c.2) else none

/-- Walk `front` links for `n` hops, absent as soon as a link is
absent. -/
def walkFront (g : LatticeGrid) : ℕ → ℤ × ℕ → Option (ℤ × ℕ)
  | 0, c => some c
  | n + 1, c => (frontNode g c).bind (walkFront g n)

/-- Number of `front` hops needed to accumulate at least range `r` at
resolution `d` (one hop accumulates `d`). -/
def hopsFor (r d : ℚ) : ℕ := (⌈r / d⌉).toNat

/-- Modelled from the spec: `Lattice::leftFront(query, range)` takes
the `left` link once (absent means absent), then walks `front` links
by `range`. -/
def leftFront (g : LatticeGrid) (d : ℚ) (q : ℤ × ℕ) (r : ℚ) : Option (ℤ × ℕ) :=
  (leftNode g q).bind (walkFront g (hopsFor r d))

/-- Modelled from the spec: `Lattice::frontLeft(query, range)` walks
`front` links by `range` first, then takes the `left` link once. -/
def frontLeft (g : LatticeGrid) (d : ℚ) (q : ℤ × ℕ) (r : ℚ) : Option (ℤ × ℕ) :=
  (walkFront g (hopsFor r d) q).bind (leftNode g)

/-- A fully populated grid, used as a concrete witness input. -/
def fullGrid : LatticeGrid := ⟨fun _ => true⟩

end planner

namespace router

/-- Concrete map query used by witnesses: one candidate on road 558
followed by one on road 47. -/
def witnessGetNext : Waypoint → ℚ → List Waypoint :=
  fun _ _ => [⟨1, 558⟩, ⟨2, 47⟩]

/-- Concrete map query used by witnesses: a single candidate that
shares the query waypoint's road 0. -/
def witnessGetNextOffRoute : Waypoint → ℚ → List Waypoint :=
  fun _ _ => [⟨1, 0⟩]

theorem nextAux_eq_none (road f : ℕ) :
    ∀ l : List ℕ, road ∉ l → nextAux road f l = none := by
  intro l
  induction l with
  | nil => intro _; rfl
  | cons x rest ih =>
    intro hmem
    rw [List.mem_cons] at hmem
    push_neg at hmem
    simp only [nextAux, if_neg (Ne.symm hmem.1)]
    exact ih hmem.2

theorem prevAux_eq_none (road b : ℕ) :
    ∀ (l : List ℕ) (acc : Option ℕ), road ∉ l → prevAux road b acc l = none := by
  intro l
  induction l with
  | nil => intro _ _; rfl
  | cons x rest ih =>
    intro acc hmem
    rw [List.mem_cons] at hmem
    push_neg at hmem
    simp only [prevAux, if_neg (Ne.symm hmem.1)]
    exact ih _ hmem.2

theorem nextAux_isSome (road f : ℕ) :
    ∀ l : List ℕ, road ∈ l → ∃ v, nextAux road f l = some v := by
  intro l
  induction l with
  | nil => intro h; exact absurd h (List.not_mem_nil road)
  | cons x rest ih =>
    intro hmem
    by_cases hx : x = road
    · cases rest with
      | nil => exact ⟨f, by simp [nextAux, hx]⟩
      | cons y t => exact ⟨y, by simp [nextAux, hx]⟩
    · have : road ∈ rest := by
        rcases List.mem_cons.mp hmem with h | h
        · exact absurd h.symm hx
        · exact h
      obtain ⟨v, hv⟩ := ih this
      exact ⟨v, by simp [nextAux, hx, hv]⟩

theorem nextSeg_isSome (road : ℕ) (hmem : road ∈ roadSequence) :
    ∃ v, nextSeg road = some v :=
  nextAux_isSome road _ roadSequence hmem

theorem nextSeg_eq_none (road : ℕ) (hmem : road ∉ roadSequence) :
    nextSeg road = none :=
  nextAux_eq_none road _ roadSequence hmem

theorem onRouteLoop_some (res : Waypoint) :
    ∀ l : List Waypoint, onRouteLoop l = some res →
      ∃ pre post, l = pre ++ res :: post ∧
        (∀ c ∈ pre, c.roadId ∉ roadSequence) ∧ res.roadId ∈ roadSequence := by
  intro l
  induction l with
  | nil => intro h; exact Option.noConfusion h
  | cons x rest ih =>
    intro h
    by_cases hx : x.roadId ∈ roadSequence
    · have hxr : some x = some res := by
        rw [← h]
        simp [onRouteLoop, hx]
      injection hxr with hxr
      subst hxr
      refine ⟨[], rest, rfl, ?_, hx⟩
      intro c hc
      exact absurd hc (List.not_mem_nil c)
    · have hrest : onRouteLoop rest = some res := by
        rw [← h]
        simp [onRouteLoop, hx]
      obtain ⟨pre, post, heq, hpre, hres⟩ := ih hrest
      refine ⟨x :: pre, post, by rw [heq]; rfl, ?_, hres⟩
      intro c hc
      rcases List.mem_cons.mp hc with rfl | h2
      · exact hx
      · exact hpre c h2

theorem onRouteLoop_none :
    ∀ l : List Waypoint,
      onRouteLoop l = none ↔ ∀ c ∈ l, c.roadId ∉ roadSequence := by
  intro l
  induction l with
  | nil =>
    constructor
    · intro _ c hc
      exact absurd hc (List.not_mem_nil c)
    · intro _; rfl
  | cons x rest ih =>
    by_cases hx : x.roadId ∈ roadSequence
    · constructor
      · intro h
        rw [show onRouteLoop (x :: rest) = some x by simp [onRouteLoop, hx]] at h
        exact Option.noConfusion h
      · intro h
        exact absurd hx (h x (List.mem_cons_self x rest))
    · rw [show onRouteLoop (x :: rest) = onRouteLoop rest by simp [onRouteLoop, hx], ih]
      constructor
      · intro h c hc
        rcases List.mem_cons.mp hc with rfl | h2
        · exact hx
        · exact h c h2
      · intro h c hc
        exact h c (List.mem_cons_of_mem x hc)

/-- C5: `waypointOnRoute` returns the first of the point's immediate
forward-reachable successors (lookahead 0.01) whose road is on the
configured cycle, in the order the map lists them (every earlier
successor is off the cycle); the result is absent exactly when no
successor's road is on the cycle, and no error is ever raised (the
function is total into `Option`). -/
theorem waypointOnRoute_first_on_route (getNext : Waypoint → ℚ → List Waypoint)
    (wp : Waypoint) :
    (∀ res, waypointOnRoute getNext wp = some res →
      ∃ pre post, getNext wp (1 / 100) = pre ++ res :: post ∧
        (∀ c ∈ pre, c.roadId ∉ roadSequence) ∧ res.roadId ∈ roadSequence) ∧
    (waypointOnRoute getNext wp = none ↔
      ∀ c ∈ getNext wp (1 / 100), c.roadId ∉ roadSequence) := by
  constructor
  · intro res hres
    exact onRouteLoop_some res (getNext wp (1 / 100)) hres
  · exact onRouteLoop_none (getNext wp (1 / 100))

/-- Witness for C5 at the concrete query map listing candidates on
roads 558 and 47. -/
theorem waypointOnRoute_first_on_route_witness :
    (∀ res, waypointOnRoute witnessGetNext ⟨0, 47⟩ = some res →
      ∃ pre post, witnessGetNext ⟨0, 47⟩ (1 / 100) = pre ++ res :: post ∧
        (∀ c ∈ pre, c.roadId ∉ roadSequence) ∧ res.roadId ∈ roadSequence) ∧
    (waypointOnRoute witnessGetNext ⟨0, 47⟩ = none ↔
      ∀ c ∈ witnessGetNext ⟨0, 47⟩ (1 / 100), c.roadId ∉ roadSequence) :=
  waypointOnRoute_first_on_route witnessGetNext ⟨0, 47⟩

/-- C2: `nextRoad` and `prevRoad` wrap around the cyclic sequence: the
head of the configured cycle is 47 and its last element is 659,
`nextRoad 659 = 47` and `prevRoad 47 = 659` (wrap-around in both
directions), and on the interior `nextRoad 47 = 558` and
`prevRoad 558 = 47`. -/
theorem nextRoad_prevRoad_wraparound :
    roadSequence.headD 0 = 47 ∧
    roadSequence.getLastD 0 = 659 ∧
    nextRoad 47 = .ok (some 558) ∧
    prevRoad 558 = .ok (some 47) ∧
    nextRoad 659 = .ok (some 47) ∧
    prevRoad 47 = .ok (some 659) :=
  ⟨rfl, rfl, rfl, rfl, rfl, rfl⟩

/-- C3: on a road absent from the configured cycle, both `nextRoad` and
`prevRoad` fail with the `notOnRoute` error; no value is returned. -/
theorem nextRoad_prevRoad_notOnRoute (road : ℕ) (hmem : road ∉ roadSequence) :
    nextRoad road = .error .notOnRoute ∧ prevRoad road = .error .notOnRoute := by
  constructor
  · unfold nextRoad nextSeg
    rw [nextAux_eq_none road _ roadSequence hmem]
  · unfold prevRoad prevSeg
    rw [prevAux_eq_none road _ roadSequence none hmem]

/-- Witness for C3 at the concrete off-route road 0. -/
theorem nextRoad_prevRoad_notOnRoute_witness :
    nextRoad 0 = .error .notOnRoute ∧ prevRoad 0 = .error .notOnRoute :=
  nextRoad_prevRoad_notOnRoute 0 (by decide)

/-- C4: on every road of the configured cycle, `nextRoad` and
`prevRoad` succeed and are mutually inverse, including across the
wrap-around point. -/
theorem nextRoad_prevRoad_inverse (road : ℕ) (hmem : road ∈ roadSequence) :
    (∃ t, nextRoad road = .ok (some t) ∧ prevRoad t = .ok (some road)) ∧
    (∃ u, prevRoad road = .ok (some u) ∧ nextRoad u = .ok (some road)) := by
  have H : ∀ x ∈ roadSequence,
      (nextSeg x).bind prevSeg = some x ∧ (prevSeg x).bind nextSeg = some x := by
    decide
  obtain ⟨h1, h2⟩ := H road hmem
  rw [Option.bind_eq_some] at h1 h2
  obtain ⟨t, ht, ht2⟩ := h1
  obtain ⟨u, hu, hu2⟩ := h2
  constructor
  · exact ⟨t, by unfold nextRoad; rw [ht], by unfold prevRoad; rw [ht2]⟩
  · exact ⟨u, by unfold prevRoad; rw [hu], by unfold nextRoad; rw [hu2]⟩

/-- Witness for C4 at the concrete on-route road 47. -/
theorem nextRoad_prevRoad_inverse_witness :
    (∃ t, nextRoad 47 = .ok (some t) ∧ prevRoad t = .ok (some 47)) ∧
    (∃ u, prevRoad 47 = .ok (some u) ∧ nextRoad u = .ok (some 47)) :=
  nextRoad_prevRoad_inverse 47 (by decide)

/-- C10: whenever `nextRoad` or `prevRoad` returns rather than failing,
the returned optional is engaged; the disengaged optional is never
produced. -/
theorem nextRoad_prevRoad_engaged (road : ℕ) (v : Option ℕ) :
    (nextRoad road = .ok v → v.isSome = true) ∧
    (prevRoad road = .ok v → v.isSome = true) := by
  constructor
  · intro h
    unfold nextRoad at h
    cases hn : nextSeg road <;> rw [hn] at h
    · exact Except.noConfusion h
    · injection h with h2
      rw [← h2]
      rfl
  · intro h
    unfold prevRoad at h
    cases hn : prevSeg road <;> rw [hn] at h
    · exact Except.noConfusion h
    · injection h with h2
      rw [← h2]
      rfl

/-- Witness for C10: both implications instantiated at engaged
results. -/
theorem nextRoad_prevRoad_engaged_witness :
    (some (558 : ℕ)).isSome = true ∧ (some (47 : ℕ)).isSome = true :=
  ⟨(nextRoad_prevRoad_engaged 47 (some 558)).1 (by rfl),
   (nextRoad_prevRoad_engaged 558 (some 47)).2 (by rfl)⟩

/-- C6: on a non-positive distance, `frontWaypoint` fails with the
`invalidArgument` error for every map query function (the map is never
consulted); it returns neither a waypoint nor an absent result. -/
theorem frontWaypoint_invalidArgument (getNext : Waypoint → ℚ → List Waypoint)
    (wp : Waypoint) (d : ℚ) (hd : d ≤ 0) :
    frontWaypoint getNext wp d = .error .invalidArgument := by
  unfold frontWaypoint
  rw [if_pos hd]

/-- Witness for C6 at distance 0 on an on-route waypoint with
candidates available. -/
theorem frontWaypoint_invalidArgument_witness :
    frontWaypoint witnessGetNext ⟨0, 47⟩ 0 = .error .invalidArgument :=
  frontWaypoint_invalidArgument witnessGetNext ⟨0, 47⟩ 0 (by decide)

/-- C9: on a waypoint whose road is off the configured cycle and a
positive distance, `frontWaypoint` fails with the `notOnRoute` error
for every map query function, in particular even when a reachable
candidate on the waypoint's own road exists; it never returns an
absent result in this case. -/
theorem frontWaypoint_notOnRoute (getNext : Waypoint → ℚ → List Waypoint)
    (wp : Waypoint) (d : ℚ) (hmem : wp.roadId ∉ roadSequence) (hd : 0 < d) :
    frontWaypoint getNext wp d = .error .notOnRoute := by
  unfold frontWaypoint
  rw [if_neg (not_le.mpr hd)]
  have hn : nextSeg wp.roadId = none := nextSeg_eq_none wp.roadId hmem
  simp only [nextRoad, hn]

/-- Witness for C9: the query waypoint is on road 0 (off route), and
the map offers a candidate on that same road 0; the call still fails
with `notOnRoute`. -/
theorem frontWaypoint_notOnRoute_witness :
    frontWaypoint witnessGetNextOffRoute ⟨0, 0⟩ 1 = .error .notOnRoute :=
  frontWaypoint_notOnRoute witnessGetNextOffRoute ⟨0, 0⟩ 1 (by decide) (by decide)

theorem findFront_same (thisR nextR : ℕ) :
    ∀ (l : List Waypoint) (acc : Option Waypoint),
      (∃ c ∈ l, c.roadId = thisR) →
      ∃ c, findFront thisR nextR l acc = some c ∧ c ∈ l ∧ c.roadId = thisR := by
  intro l
  induction l with
  | nil =>
    intro acc h
    obtain ⟨c, hc, _⟩ := h
    exact absurd hc (List.not_mem_nil c)
  | cons x rest ih =>
    intro acc h
    by_cases hx : x.roadId = thisR
    · exact ⟨x, by simp [findFront, hx], List.mem_cons_self x rest, hx⟩
    · obtain ⟨c, hc, hcr⟩ := h
      have hcrest : c ∈ rest := by
        rcases List.mem_cons.mp hc with rfl | h2
        · exact absurd hcr hx
        · exact h2
      have step : findFront thisR nextR (x :: rest) acc =
          findFront thisR nextR rest (if x.roadId = nextR then some x else acc) := by
        simp [findFront, hx]
      obtain ⟨c2, h1, h2, h3⟩ :=
        ih (if x.roadId = nextR then some x else acc) ⟨c, hcrest, hcr⟩
      refine ⟨c2, ?_, List.mem_cons_of_mem x h2, h3⟩
      rw [step, h1]

theorem findFront_no_same (thisR nextR : ℕ) :
    ∀ (l : List Waypoint) (acc : Option Waypoint),
      (∀ c ∈ l, c.roadId ≠ thisR) →
      (findFront thisR nextR l acc = acc ∧ ∀ c ∈ l, c.roadId ≠ nextR) ∨
      (∃ c, findFront thisR nextR l acc = some c ∧ c ∈ l ∧ c.roadId = nextR) := by
  intro l
  induction l with
  | nil =>
    intro acc _
    left
    refine ⟨rfl, ?_⟩
    intro c hc
    exact absurd hc (List.not_mem_nil c)
  | cons x rest ih =>
    intro acc hall
    have hx : x.roadId ≠ thisR := hall x (List.mem_cons_self x rest)
    have hrest : ∀ c ∈ rest, c.roadId ≠ thisR :=
      fun c hc => hall c (List.mem_cons_of_mem x hc)
    have step : findFront thisR nextR (x :: rest) acc =
        findFront thisR nextR rest (if x.roadId = nextR then some x else acc) := by
      simp [findFront, hx]
    rcases ih (if x.roadId = nextR then some x else acc) hrest with
      ⟨heq, hnone⟩ | ⟨c, h1, h2, h3⟩
    · by_cases hxn : x.roadId = nextR
      · right
        exact ⟨x, by rw [step, heq, if_pos hxn], List.mem_cons_self x rest, hxn⟩
      · left
        refine ⟨by rw [step, heq, if_neg hxn], ?_⟩
        intro c hc
        rcases List.mem_cons.mp hc with rfl | h2
        · exact hxn
        · exact hnone c h2
    · right
      exact ⟨c, by rw [step, h1], List.mem_cons_of_mem x h2, h3⟩

/-- C1: on a waypoint whose road is on the configured cycle and a
positive distance, `frontWaypoint` succeeds: if any reachable candidate
lies on the waypoint's own road, the result is such a candidate
(same-road continuation takes priority); otherwise, if any reachable
candidate lies on the next road of the cycle, the result is such a
candidate; otherwise the result is absent. -/
theorem frontWaypoint_route_priority (getNext : Waypoint → ℚ → List Waypoint)
    (wp : Waypoint) (d : ℚ) (hmem : wp.roadId ∈ roadSequence) (hd : 0 < d) :
    ∃ nr res,
      nextRoad wp.roadId = .ok (some nr) ∧
      frontWaypoint getNext wp d = .ok res ∧
      ((∃ c ∈ getNext wp d, c.roadId = wp.roadId) →
        ∃ c, res = some c ∧ c ∈ getNext wp d ∧ c.roadId = wp.roadId) ∧
      ((∀ c ∈ getNext wp d, c.roadId ≠ wp.roadId) →
        (∃ c ∈ getNext wp d, c.roadId = nr) →
        ∃ c, res = some c ∧ c ∈ getNext wp d ∧ c.roadId = nr) ∧
      ((∀ c ∈ getNext wp d, c.roadId ≠ wp.roadId) →
        (∀ c ∈ getNext wp d, c.roadId ≠ nr) → res = none) := by
  obtain ⟨v, hv⟩ := nextSeg_isSome wp.roadId hmem
  have hnr : nextRoad wp.roadId = .ok (some v) := by
    unfold nextRoad
    rw [hv]
  refine ⟨v, findFront wp.roadId v (getNext wp d) none, hnr, ?_, ?_, ?_, ?_⟩
  · unfold frontWaypoint
    rw [if_neg (not_le.mpr hd), hnr]
    rfl
  · intro h
    exact findFront_same wp.roadId v (getNext wp d) none h
  · intro hno hex
    rcases findFront_no_same wp.roadId v (getNext wp d) none hno with
      ⟨heq, hnone⟩ | ⟨c, h1, h2, h3⟩
    · obtain ⟨c, hc, hcr⟩ := hex
      exact absurd hcr (hnone c hc)
    · exact ⟨c, h1, h2, h3⟩
  · intro hno hnone2
    rcases findFront_no_same wp.roadId v (getNext wp d) none hno with
      ⟨heq, _⟩ | ⟨c, h1, h2, h3⟩
    · exact heq
    · exact absurd h3 (hnone2 c h2)

/-- Witness for C1 on road 47 at distance 1, with candidates on roads
558 and 47. -/
theorem frontWaypoint_route_priority_witness :
    ∃ nr res,
      nextRoad 47 = .ok (some nr) ∧
      frontWaypoint witnessGetNext ⟨0, 47⟩ 1 = .ok res ∧
      ((∃ c ∈ witnessGetNext ⟨0, 47⟩ 1, c.roadId = 47) →
        ∃ c, res = some c ∧ c ∈ witnessGetNext ⟨0, 47⟩ 1 ∧ c.roadId = 47) ∧
      ((∀ c ∈ witnessGetNext ⟨0, 47⟩ 1, c.roadId ≠ 47) →
        (∃ c ∈ witnessGetNext ⟨0, 47⟩ 1, c.roadId = nr) →
        ∃ c, res = some c ∧ c ∈ witnessGetNext ⟨0, 47⟩ 1 ∧ c.roadId = nr) ∧
      ((∀ c ∈ witnessGetNext ⟨0, 47⟩ 1, c.roadId ≠ 47) →
        (∀ c ∈ witnessGetNext ⟨0, 47⟩ 1, c.roadId ≠ nr) → res = none) :=
  frontWaypoint_route_priority witnessGetNext ⟨0, 47⟩ 1 (by decide) (by decide)

end router

namespace planner

/-- C7: `shift` is exactly `extend` to the measured range plus the
movement followed by `shorten` back to the measured range, and for a
positive movement below the current range the window's total range
(exit distance minus entry distance) is preserved. -/
theorem shift_range_preserved (s : LatticeState) (m : ℚ)
    (hres : 0 < s.res) (hm : 0 < m) (hmR : m < latticeRange s) :
    shift m s = shorten (latticeExit s - latticeEntry s)
      (extend ((latticeExit s - latticeEntry s) + m) s) ∧
    latticeExit (shift m s) - latticeEntry (shift m s) =
      latticeExit s - latticeEntry s := by
  refine ⟨rfl, ?_⟩
  have hsm : latticeRange s = (s.steps : ℚ) * s.res := by
    simp [latticeRange, latticeExit, latticeEntry]
  have hR0 : 0 < latticeRange s := lt_trans hm hmR
  have hcond1 : ¬ (latticeRange s + m ≤ latticeRange s) := by linarith
  have hext : extend (latticeRange s + m) s =
      { s with steps := (⌈(latticeRange s + m) / s.res⌉).toNat } := by
    rw [extend, if_neg hcond1]
  have hKpos : (0 : ℤ) < ⌈(latticeRange s + m) / s.res⌉ := by
    apply Int.ceil_pos.mpr
    apply div_pos _ hres
    linarith
  have hKcast : (((⌈(latticeRange s + m) / s.res⌉).toNat : ℚ)) =
      ((⌈(latticeRange s + m) / s.res⌉ : ℤ) : ℚ) := by
    exact_mod_cast congrArg (fun z : ℤ => (z : ℚ)) (Int.toNat_of_nonneg hKpos.le)
  have hKge : (latticeRange s + m) / s.res ≤
      ((⌈(latticeRange s + m) / s.res⌉ : ℤ) : ℚ) := Int.le_ceil _
  have hKresge : latticeRange s + m ≤
      ((⌈(latticeRange s + m) / s.res⌉ : ℤ) : ℚ) * s.res := by
    have h2 := (div_le_iff₀ hres).mp hKge
    linarith
  have hextrange : latticeRange (extend (latticeRange s + m) s) =
      (((⌈(latticeRange s + m) / s.res⌉).toNat : ℚ)) * s.res := by
    rw [hext]
    simp [latticeRange, latticeExit, latticeEntry]
  have hcond2 : ¬ (latticeRange (extend (latticeRange s + m) s) ≤ latticeRange s) := by
    rw [hextrange, hKcast]
    linarith
  have hshort : shorten (latticeRange s) (extend (latticeRange s + m) s) =
      { s with steps := (⌊latticeRange s / s.res⌋).toNat } := by
    rw [shorten, if_neg hcond2, hext]
  have hfloor : (⌊latticeRange s / s.res⌋).toNat = s.steps := by
    rw [hsm, mul_div_assoc, div_self (ne_of_gt hres), mul_one, Int.floor_natCast]
    exact Int.toNat_natCast s.steps
  have hstep : shift m s = { s with steps := (⌊latticeRange s / s.res⌋).toNat } := by
    calc shift m s = shorten (latticeRange s) (extend (latticeRange s + m) s) := rfl
    _ = { s with steps := (⌊latticeRange s / s.res⌋).toNat } := hshort
  rw [hstep, hfloor]

/-- Witness for C7 on the window starting at 0 with 100 steps of
resolution 1 and movement 50. -/
theorem shift_range_preserved_witness :
    shift 50 ⟨0, 100, 1⟩ =
      shorten (latticeExit ⟨0, 100, 1⟩ - latticeEntry ⟨0, 100, 1⟩)
        (extend ((latticeExit ⟨0, 100, 1⟩ - latticeEntry ⟨0, 100, 1⟩) + 50)
          ⟨0, 100, 1⟩) ∧
    latticeExit (shift 50 ⟨0, 100, 1⟩) -
        latticeEntry (shift 50 ⟨0, 100, 1⟩) =
      latticeExit ⟨0, 100, 1⟩ - latticeEntry ⟨0, 100, 1⟩ :=
  shift_range_preserved ⟨0, 100, 1⟩ 50 (by decide) (by decide)
    (by
      simp [latticeRange, latticeExit, latticeEntry]
      decide)

theorem walkFront_some (g : LatticeGrid) :
    ∀ (n : ℕ) (c c2 : ℤ × ℕ), walkFront g n c = some c2 → c2 = (c.1, c.2 + n) := by
  intro n
  induction n with
  | zero =>
    intro c c2 h
    injection h with h
    rw [← h]
    simp
  | succ n ih =>
    intro c c2 h
    rw [walkFront] at h
    rcases Option.bind_eq_some.mp h with ⟨a, ha, hwalk⟩
    rw [frontNode] at ha
    split at ha
    · injection ha with ha
      subst ha
      have h2 := ih _ _ hwalk
      rw [h2]
      simp [Prod.ext_iff]
      omega
    · exact Option.noConfusion ha

/-- C8: whenever `leftFront` and `frontLeft` both return a node for the
same query and range, they return the same node; on a lattice lacking
full lateral coverage they can diverge only in presence (one absent,
the other present), never by returning two different nodes. -/
theorem leftFront_frontLeft_agree (g : LatticeGrid) (d : ℚ) (q : ℤ × ℕ)
    (r : ℚ) (u v : ℤ × ℕ) (h1 : leftFront g d q r = some u)
    (h2 : frontLeft g d q r = some v) : u = v := by
  unfold leftFront at h1
  unfold frontLeft at h2
  rcases Option.bind_eq_some.mp h1 with ⟨a, ha, hwalk1⟩
  rcases Option.bind_eq_some.mp h2 with ⟨b, hwalk2, hb⟩
  rw [leftNode] at ha
  split at ha
  · injection ha with ha
    subst ha
    have hu := walkFront_some g _ _ _ hwalk1
    have hbw := walkFront_some g _ _ _ hwalk2
    rw [leftNode] at hb
    split at hb
    · injection hb with hb
      subst hb
      subst hbw
      rw [hu]
    · exact Option.noConfusion hb
  · exact Option.noConfusion ha

/-- Witness for C8 on the fully populated grid, query node at lane 0
index 0, range 3 at resolution 1: both query orders return the node at
lane 1 index 3. -/
theorem leftFront_frontLeft_agree_witness :
    leftFront fullGrid 1 (0, 0) 3 = some (1, 3) ∧
    frontLeft fullGrid 1 (0, 0) 3 = some (1, 3) ∧
    ((1 : ℤ), (3 : ℕ)) = ((1 : ℤ), (3 : ℕ)) :=
  have hh : hopsFor 3 1 = 3 := by simp [hopsFor]
  have hlf : leftFront fullGrid 1 (0, 0) 3 = some (1, 3) := by
    rw [leftFront, hh]
    decide
  have hfl : frontLeft fullGrid 1 (0, 0) 3 = some (1, 3) := by
    rw [frontLeft, hh]
    decide
  ⟨hlf, hfl,
   leftFront_frontLeft_agree fullGrid 1 (0, 0) 3 (1, 3) (1, 3) hlf hfl⟩

end planner
